import Mathlib

/-!
# JS-Runtime-Visualizer — verification of the core runtime model

This file is a shallow embedding of the core of the JS-Runtime-Visualizer
repository: the instruction translator's hoisting pass (`src/unnamed/part_001`,
`Parser`), the runtime state store (`src/js/stateManager.js`, `StateManager`)
and the step interpreter (`src/unnamed/part_001`, `Executor`), together with
theorems settling the specification claims about them.

Modelling conventions, fixed once here:

* JS objects used as string-keyed records and JS `Map`s are both modelled as
  association lists (`List (String × α)`) with JS insertion-order semantics:
  an update keeps the key's position, an insert appends at the end.
* JS mutation is modelled by explicit state passing.  Operations of the state
  store that call `notify` return, besides the new state, the list of emitted
  notifications (`Notif`); the notification payloads that are mere snapshots
  of collections (for rendering) are omitted, since they are determined by
  the state at the emission point.
* Values produced by the host clock (`Date.now()`, `Math.random()`) — frame
  ids, task ids, timer handles, `createdAt` timestamps — carry no meaning in
  the program beyond freshness/display.  They are modelled as `Nat`s drawn
  from an explicit seed (or fixed to `0` where nothing reads them).
* JS numeric literals are carried as `Int`; the program never computes with
  them (per the spec, values are tracked structurally, not arithmetically).
* Function bodies are kept by the code as raw text and re-translated by the
  pure `Parser.parseBody` at every invocation.  The model carries bodies as
  already-translated instruction lists, so a re-translation is the identity;
  this is faithful because `parse` is a pure function of the body text.
* The interpreter's recursion (nested calls, event-loop draining) is made
  total with an explicit fuel parameter; `none` means the fuel ran out.
  Genuine divergence of a loop is expressed as `∀ fuel, … = none`.
-/

namespace JSRV

/-! ## Association lists: JS objects / Maps -/

/-- Property read `o[k]`: first binding of the key, if any. -/
def alGet (l : List (String × α)) (k : String) : Option α :=
  (l.find? (fun p => p.1 = k)).map (·.2)

/-- Property write `o[k] = v` with JS insertion-order semantics:
an existing key keeps its position, a new key is appended. -/
def alSet (l : List (String × α)) (k : String) (v : α) : List (String × α) :=
  match l with
  | [] => [(k, v)]
  | (k', v') :: rest =>
    if k' = k then (k, v) :: rest else (k', v') :: alSet rest k v

/-- Key removal, `Map.delete`. -/
def alDelete (l : List (String × α)) (k : String) : List (String × α) :=
  l.filter (fun p => ¬ p.1 = k)

/-! ## Decimal numerals

JS template literals (`` `ref_${n}` ``, `` `scope_${n}` ``) render the counter
in decimal.  `natDec` is that decimal numeral; `natDecode` is a left inverse
used to prove the numeral injective. -/

/-- The character of one decimal digit. -/
def digitChar (d : Nat) : Char :=
  Char.ofNat (48 + d)

/-- Inverse of `digitChar` on actual digits. -/
def charDigit (c : Char) : Nat :=
  c.toNat - 48

/-- Digit list (most significant first) of a positive number; the first
argument is fuel, `natDec` supplies `n` itself which is always enough. -/
def natDecCore : Nat → Nat → List Char
  | 0, _ => []
  | fuel + 1, n =>
    if n = 0 then [] else natDecCore fuel (n / 10) ++ [digitChar (n % 10)]

/-- The decimal numeral of a natural number, as JS `${n}` renders it. -/
def natDec (n : Nat) : String :=
  if n = 0 then "0" else String.mk (natDecCore n n)

/-- Decode a digit string back to the number. -/
def natDecode (s : String) : Nat :=
  s.data.foldl (fun acc c => 10 * acc + charDigit c) 0

theorem charDigit_digitChar {d : Nat} (h : d < 10) :
    charDigit (digitChar d) = d := by
  interval_cases d <;> rfl

theorem foldl_decode_append (l : List Char) (c : Char) (acc : Nat) :
    (l ++ [c]).foldl (fun a x => 10 * a + charDigit x) acc
      = 10 * (l.foldl (fun a x => 10 * a + charDigit x) acc) + charDigit c := by
  induction l generalizing acc with
  | nil => rfl
  | cons x xs ih => simp [ih (10 * acc + charDigit x)]

theorem natDecCore_decode {fuel n : Nat} (h : n ≤ fuel) :
    (natDecCore fuel n).foldl (fun a x => 10 * a + charDigit x) 0 = n := by
  induction fuel generalizing n with
  | zero => simp_all [natDecCore]
  | succ fuel ih =>
    by_cases hn : n = 0
    · simp [natDecCore, hn]
    · have hdiv : n / 10 ≤ fuel := by omega
      have := ih hdiv
      simp only [natDecCore, hn, if_false, foldl_decode_append, this,
        charDigit_digitChar (Nat.mod_lt n (by omega))]
      omega

theorem natDecode_natDec (n : Nat) : natDecode (natDec n) = n := by
  by_cases hn : n = 0
  · subst hn; rfl
  · simp only [natDec, natDecode, hn, if_false]
    exact natDecCore_decode (Nat.le_refl n)

theorem natDec_injective : Function.Injective natDec :=
  Function.LeftInverse.injective natDecode_natDec

/-! ## Instruction syntax

The tagged instruction variants produced by `Parser.parse`
(`src/unnamed/part_001`, lines 40–236) and the value-expression variants
produced by `Parser.parseValue` (lines 241–331).  `body` fields hold the
already-translated instruction sequence of the body text (see the header
note); `setTimeout` and `promise` callbacks likewise. -/

mutual

inductive ValueExpr where
  | num (value : Int)
  | str (value : String)
  | bool (value : Bool)
  | nullE
  | undefinedE
  | array (value : List ValueExpr)
  | object (value : List (String × ValueExpr))
  | arrowFunction (params : List String) (body : String)
  | functionE (params : List String) (body : String)
  | call (name : String) (args : List ValueExpr)
  | propertyAccess (value : String)
  | reference (value : String)
deriving Repr

inductive Instr where
  | hoistingPhase (functions : List String) (vars : List String) (line : Nat)
  | functionDeclaration (name : String) (params : List String)
      (body : List Instr) (line : Nat) (hoisted : Bool)
  | hoistedVar (name : String) (line : Nat) (originalLine : Nat)
  | variableDeclaration (declarationType : String) (name : String)
      (value : ValueExpr) (line : Nat)
  | assignment (name : String) (value : ValueExpr) (line : Nat)
  | functionCall (name : String) (args : List ValueExpr) (line : Nat)
  | methodCall (object : String) (method : String) (args : List ValueExpr)
      (line : Nat)
  | consoleOp (method : String) (args : List ValueExpr) (line : Nat)
  | setTimeoutI (callback : List Instr) (delay : Nat) (line : Nat)
  | promiseI (callback : List Instr) (line : Nat)
  | returnI (value : ValueExpr) (line : Nat)
  | newObject (declarationType : String) (name : String) (ctor : String)
      (args : List ValueExpr) (line : Nat)
deriving Repr

end

/-- The `line` field every instruction carries. -/
def Instr.line : Instr → Nat
  | .hoistingPhase _ _ l => l
  | .functionDeclaration _ _ _ l _ => l
  | .hoistedVar _ l _ => l
  | .variableDeclaration _ _ _ l => l
  | .assignment _ _ l => l
  | .functionCall _ _ l => l
  | .methodCall _ _ _ l => l
  | .consoleOp _ _ l => l
  | .setTimeoutI _ _ l => l
  | .promiseI _ l => l
  | .returnI _ l => l
  | .newObject _ _ _ _ l => l

/-! ## The hoisting pass

`Parser.processHoisting`, `src/unnamed/part_001` lines 365–402. -/

/-- Source `inst.type === 'functionDeclaration'`. -/
def isFunctionDeclaration : Instr → Bool
  | .functionDeclaration _ _ _ _ _ => true
  | _ => false

/-- Source `inst.type === 'variableDeclaration' && inst.declarationType === 'var'`. -/
def isVarDeclaration : Instr → Bool
  | .variableDeclaration dt _ _ _ => dt = "var"
  | _ => false

/-- The function-declaration instructions, each re-emitted with
`hoisted: true` (the `{...inst, hoisted: true}` spread). -/
def hoistedFunctionDecls (instructions : List Instr) : List Instr :=
  instructions.filterMap (fun i =>
    match i with
    | .functionDeclaration n p b l _ => some (.functionDeclaration n p b l true)
    | _ => none)

/-- The value-less `hoistedVar` placeholders built from the `var`
declarations (`{type: 'hoistedVar', name, line, originalLine: line}`). -/
def hoistedVarDecls (instructions : List Instr) : List Instr :=
  instructions.filterMap (fun i =>
    match i with
    | .variableDeclaration dt n _ l =>
      if dt = "var" then some (.hoistedVar n l l) else none
    | _ => none)

/-- The instructions pushed onto `rest`: everything except function
declarations (a `var` declaration goes to `rest` as well as yielding a
placeholder). -/
def restInstructions (instructions : List Instr) : List Instr :=
  instructions.filter (fun i => ¬ isFunctionDeclaration i)

/-- Source `Parser.processHoisting` (lines 365–402): lift function declarations and
`var` placeholders to the front and, when any exist, put one
`hoistingPhase` marker before everything. -/
def processHoisting (instructions : List Instr) : List Instr :=
  let functionDeclarations := hoistedFunctionDecls instructions
  let varDeclarations := hoistedVarDecls instructions
  let rest := restInstructions instructions
  let hoisted : List Instr :=
    if functionDeclarations.length > 0 ∨ varDeclarations.length > 0 then
      [.hoistingPhase
        (functionDeclarations.filterMap (fun i =>
          match i with
          | .functionDeclaration n _ _ _ _ => some n
          | _ => none))
        (varDeclarations.filterMap (fun i =>
          match i with
          | .hoistedVar n _ _ => some n
          | _ => none))
        0]
    else []
  hoisted ++ functionDeclarations ++ varDeclarations ++ rest

/-! ## Runtime values

`Value` is the shape of the JS values the interpreter passes around after
`resolveValue`: literals, plain composites, the function-literal parse nodes
(`{type: 'function' | 'arrowFunction', params, body}`), with heap identities
stored as the plain strings they are in JS. -/

inductive Value where
  | undefV
  | nullV
  | num (v : Int)
  | str (s : String)
  | bool (b : Bool)
  | funcNode (kind : String) (params : List String) (body : String)
  | list (elems : List Value)
  | objV (props : List (String × Value))
deriving Repr

/-- A scope-variable record `{value, type, declarationType}`
(`addScopeVariable`, stateManager.js lines 212–222). -/
structure VarRec where
  value : Value
  type : String
  declarationType : String
deriving Repr

/-- A frame-variable record `{value, type}` (`updateFrameVariable`, lines
145–151); the interpreter always stores a pre-formatted display string. -/
structure FrameVar where
  value : String
  type : String
deriving Repr, DecidableEq

/-- One call-stack frame (`pushCallStack`, lines 106–125). -/
structure Frame where
  id : Nat
  name : String
  type : String
  vars : List (String × FrameVar)
  thisBinding : String
  line : Nat
  isActive : Bool
deriving Repr, DecidableEq

/-- The caller-supplied part of a frame; `pushCallStack` fills defaults. -/
structure FrameArg where
  name : String
  type : String
  vars : List (String × FrameVar)
  thisBinding : String
  line : Nat
deriving Repr

/-- The payload stored in a heap object: a function record
`{name, params, body, closure}` (executeFunctionDeclaration) or a raw
composite value (executeVariableDeclaration / executeNewObject). -/
inductive HeapVal where
  | funcV (name : String) (params : List String) (body : List Instr)
      (closure : Option String)
  | valueV (v : Value)
deriving Repr

/-- One heap object (`allocateHeap`, lines 156–168).  `createdAt` is a
wall-clock timestamp in the code; nothing reads it, modelled as `0`. -/
structure HeapObject where
  id : String
  type : String
  value : HeapVal
  references : List String
  createdAt : Nat
deriving Repr

/-- One scope (`createScope`, lines 195–207). -/
structure Scope where
  id : String
  name : String
  type : String
  parentId : Option String
  vars : List (String × VarRec)
  createdAt : Nat
deriving Repr

/-- A web-API / callback-queue task (`addToWebAPI`, lines 249–261).
`id` is clock-derived in the code, modelled as a seed-drawn `Nat`;
`startTime` is a timestamp nothing reads, modelled as `0`. -/
structure ApiTask where
  id : Nat
  name : String
  callback : List Instr
  delay : Nat
  startTime : Nat
  type : String
deriving Repr

/-- A microtask-queue task (`addToMicrotaskQueue`, lines 283–297). -/
structure MicroTask where
  id : Nat
  name : String
  callback : List Instr
  type : String
deriving Repr

/-- The three event-loop queues (the `state.eventLoop` sub-object). -/
structure EventLoopState where
  webAPIs : List ApiTask
  callbackQueue : List ApiTask
  microtaskQueue : List MicroTask
deriving Repr

/-- The StateManager's private `state` (stateManager.js lines 8–28). -/
structure SMState where
  code : String
  parsedCode : List Instr
  callStack : List Frame
  heap : List (String × HeapObject)
  heapIdCounter : Nat
  scopes : List Scope
  scopeIdCounter : Nat
  eventLoop : EventLoopState
  currentLine : Int
  currentStep : Nat
  isRunning : Bool
  isPaused : Bool
  speed : Nat
  executionQueue : List Instr
  timers : List Nat
deriving Repr

/-- The initial `state` literal (lines 8–28). -/
def initialSMState : SMState where
  code := ""
  parsedCode := []
  callStack := []
  heap := []
  heapIdCounter := 0
  scopes := []
  scopeIdCounter := 0
  eventLoop := { webAPIs := [], callbackQueue := [], microtaskQueue := [] }
  currentLine := -1
  currentStep := 0
  isRunning := false
  isPaused := false
  speed := 1000
  executionQueue := []
  timers := []

/-- A notification emitted by `notify(event, data)`.  Collection snapshots
included in the payloads are omitted (determined by the state at emission);
the fields a claim inspects are kept. -/
inductive Notif where
  | codeN (code : String)
  | callStackN (action : String)
  | heapN (action : String) (fromId : Option String) (toId : Option String)
  | scopesN (action : String)
  | eventLoopN (action : String)
  | currentLineN (line : Int)
  | executionN (isRunning : Bool) (isPaused : Bool)
  | consoleN (ctype : String) (args : List String)
deriving Repr, DecidableEq

/-! ### Store operations

Each operation mirrors one function of `StateManager`; the returned list is
the sequence of notifications the call emits. -/

/-- Source `getState()` (lines 74–86) as a value: the snapshot a caller observes is
(at the moment of the call) equal to the state.  Its *sharing* structure —
fresh top-level containers around shared element records — is modelled
separately for claim C7 below. -/
def getState (st : SMState) : SMState := st

/-- Source `setCode` (lines 91–94). -/
def setCode (code : String) (st : SMState) : SMState × List Notif :=
  ({ st with code := code }, [.codeN code])

/-- Source `setParsedCode` (lines 99–101). -/
def setParsedCode (parsed : List Instr) (st : SMState) : SMState :=
  { st with parsedCode := parsed }

/-- Source `state.callStack[state.callStack.length - 1].isActive = false`. -/
def deactivateTop : List Frame → List Frame
  | [] => []
  | [f] => [{ f with isActive := false }]
  | f :: rest => f :: deactivateTop rest

/-- Source `state.callStack[state.callStack.length - 1].isActive = true`. -/
def activateTop : List Frame → List Frame
  | [] => []
  | [f] => [{ f with isActive := true }]
  | f :: rest => f :: activateTop rest

/-- The `newFrame` object literal of `pushCallStack` (lines 107–115):
defaults applied, `isActive: true`; `id` is the clock-derived fresh value
`Date.now() + Math.random()`, supplied by the caller's seed. -/
def mkNewFrame (id : Nat) (frame : FrameArg) : Frame :=
  { id
    name := if frame.name = "" then "anonymous" else frame.name
    type := if frame.type = "" then "function" else frame.type
    vars := frame.vars
    thisBinding := if frame.thisBinding = "" then "window" else frame.thisBinding
    line := frame.line
    isActive := true }

/-- Source `pushCallStack(frame)` (lines 106–125). -/
def pushCallStack (id : Nat) (frame : FrameArg) (st : SMState) :
    Frame × SMState × List Notif :=
  let newFrame := mkNewFrame id frame
  (newFrame,
   { st with callStack := deactivateTop st.callStack ++ [newFrame] },
   [.callStackN "push"])

/-- Source `popCallStack()` (lines 130–140). -/
def popCallStack (st : SMState) : Option Frame × SMState × List Notif :=
  (st.callStack.getLast?,
   { st with callStack := activateTop st.callStack.dropLast },
   [.callStackN "pop"])

/-- Source `updateFrameVariable(name, value, type)` (lines 145–151). -/
def updateFrameVariable (name value vtype : String) (st : SMState) :
    SMState × List Notif :=
  match st.callStack.getLast? with
  | none => (st, [])
  | some topFrame =>
    let topFrame' :=
      { topFrame with vars := alSet topFrame.vars name ⟨value, vtype⟩ }
    ({ st with callStack := st.callStack.dropLast ++ [topFrame'] },
     [.callStackN "update"])

/-- Source `allocateHeap(type, value, refId = null)` (lines 156–168).  With the
default `refId` the identity is `` `ref_${++state.heapIdCounter}` ``; the
`||` short-circuits, so an explicit (truthy) `refId` skips the increment. -/
def allocateHeap (htype : String) (value : HeapVal) (refId : Option String)
    (st : SMState) : String × SMState × List Notif :=
  let counter' := match refId with
    | some _ => st.heapIdCounter
    | none => st.heapIdCounter + 1
  let id := match refId with
    | some r => r
    | none => "ref_" ++ natDec (st.heapIdCounter + 1)
  let heapObj : HeapObject :=
    { id, type := htype, value, references := [], createdAt := 0 }
  (id,
   { st with heap := alSet st.heap id heapObj, heapIdCounter := counter' },
   [.heapN "allocate" none none])

/-- Source `addHeapReference(fromId, toId)` (lines 173–179). -/
def addHeapReference (fromId toId : String) (st : SMState) :
    SMState × List Notif :=
  match alGet st.heap fromId with
  | none => (st, [])
  | some obj =>
    if toId ∈ obj.references then (st, [])
    else
      let obj' := { obj with references := obj.references ++ [toId] }
      ({ st with heap := alSet st.heap fromId obj' },
       [.heapN "reference" (some fromId) (some toId)])

/-- Source `deallocateHeap(id)` (lines 184–190). -/
def deallocateHeap (id : String) (st : SMState) : SMState × List Notif :=
  match alGet st.heap id with
  | none => (st, [])
  | some _ => ({ st with heap := alDelete st.heap id }, [.heapN "deallocate" none none])

/-- Source `createScope(name, type, parentId = null)` (lines 195–207). -/
def createScope (name stype : String) (parentId : Option String)
    (st : SMState) : Scope × SMState × List Notif :=
  let counter' := st.scopeIdCounter + 1
  let scope : Scope :=
    { id := "scope_" ++ natDec counter', name, type := stype, parentId
      vars := [], createdAt := 0 }
  (scope,
   { st with scopes := st.scopes ++ [scope], scopeIdCounter := counter' },
   [.scopesN "create"])

/-- In-place mutation of the scope object `scopes.find(...)` returned:
rewrite the first scope with the given id. -/
def updateScopeById : List Scope → String → (Scope → Scope) → List Scope
  | [], _, _ => []
  | s :: rest, sid, f =>
    if s.id = sid then f s :: rest else s :: updateScopeById rest sid f

/-- Source `addScopeVariable(scopeId, name, value, varType, declarationType)`
(lines 212–222).  The id may be the `null` of `getCurrentScopeId()`. -/
def addScopeVariable (scopeId : Option String) (name : String) (value : Value)
    (varType declarationType : String) (st : SMState) : SMState × List Notif :=
  match scopeId with
  | none => (st, [])
  | some sid =>
    match st.scopes.find? (fun s => s.id = sid) with
    | none => (st, [])
    | some _ =>
      ({ st with scopes := updateScopeById st.scopes sid (fun sc =>
          { sc with vars := alSet sc.vars name ⟨value, varType, declarationType⟩ }) },
       [.scopesN "addVariable"])

/-- Source `updateScopeVariable(scopeId, name, value)` (lines 227–233): only the
`.value` of an *existing* record is assigned — `scope.variables[name]` must
already be present, otherwise the call does nothing. -/
def updateScopeVariable (scopeId : Option String) (name : String)
    (value : Value) (st : SMState) : SMState × List Notif :=
  match scopeId with
  | none => (st, [])
  | some sid =>
    match st.scopes.find? (fun s => s.id = sid) with
    | none => (st, [])
    | some scope =>
      match alGet scope.vars name with
      | none => (st, [])
      | some r =>
        ({ st with scopes := updateScopeById st.scopes sid (fun sc =>
            { sc with vars := alSet sc.vars name { r with value := value } }) },
         [.scopesN "updateVariable"])

/-- Source `destroyScope(scopeId)` (lines 238–244). -/
def destroyScope (scopeId : String) (st : SMState) : SMState × List Notif :=
  match st.scopes.find? (fun s => s.id = scopeId) with
  | none => (st, [])
  | some _ =>
    ({ st with scopes := st.scopes.filter (fun s => ¬ s.id = scopeId) },
     [.scopesN "destroy"])

/-- Source `addToWebAPI(task)` (lines 249–261); `id` is the clock-derived identity. -/
def addToWebAPI (id : Nat) (name : String) (callback : List Instr)
    (delay : Nat) (ttype : String) (st : SMState) :
    ApiTask × SMState × List Notif :=
  let apiTask : ApiTask :=
    { id, name, callback, delay, startTime := 0
      type := if ttype = "" then "timer" else ttype }
  (apiTask,
   { st with eventLoop :=
      { st.eventLoop with webAPIs := st.eventLoop.webAPIs ++ [apiTask] } },
   [.eventLoopN "addWebAPI"])

/-- Source `moveToCallbackQueue(taskId)` (lines 266–278). -/
def moveToCallbackQueue (taskId : Nat) (st : SMState) :
    Option ApiTask × SMState × List Notif :=
  match st.eventLoop.webAPIs.find? (fun t => t.id = taskId) with
  | none => (none, st, [])
  | some task =>
    (some task,
     { st with eventLoop :=
        { st.eventLoop with
          webAPIs := st.eventLoop.webAPIs.filter (fun t => ¬ t.id = taskId)
          callbackQueue := st.eventLoop.callbackQueue ++ [task] } },
     [.eventLoopN "moveToCallback"])

/-- Source `addToMicrotaskQueue(task)` (lines 283–297). -/
def addToMicrotaskQueue (id : Nat) (name : String) (callback : List Instr)
    (st : SMState) : MicroTask × SMState × List Notif :=
  let microTask : MicroTask := { id, name, callback, type := "microtask" }
  (microTask,
   { st with eventLoop :=
      { st.eventLoop with
        microtaskQueue := st.eventLoop.microtaskQueue ++ [microTask] } },
   [.eventLoopN "addMicrotask"])

/-- Source `processNextMicrotask()` (lines 302–313): shift the *live* queue. -/
def processNextMicrotask (st : SMState) :
    Option MicroTask × SMState × List Notif :=
  match st.eventLoop.microtaskQueue with
  | [] => (none, st, [])
  | task :: rest =>
    (some task,
     { st with eventLoop := { st.eventLoop with microtaskQueue := rest } },
     [.eventLoopN "processMicrotask"])

/-- Source `processNextCallback()` (lines 318–329). -/
def processNextCallback (st : SMState) :
    Option ApiTask × SMState × List Notif :=
  match st.eventLoop.callbackQueue with
  | [] => (none, st, [])
  | task :: rest =>
    (some task,
     { st with eventLoop := { st.eventLoop with callbackQueue := rest } },
     [.eventLoopN "processCallback"])

/-- Source `setCurrentLine(line)` (lines 334–337). -/
def setCurrentLine (line : Int) (st : SMState) : SMState × List Notif :=
  ({ st with currentLine := line }, [.currentLineN line])

/-- Source `incrementStep()` (lines 342–345). -/
def incrementStep (st : SMState) : SMState :=
  { st with currentStep := st.currentStep + 1 }

/-- Source `setExecutionState(isRunning, isPaused = false)` (lines 350–354). -/
def setExecutionState (isRunning isPaused : Bool) (st : SMState) :
    SMState × List Notif :=
  ({ st with isRunning, isPaused }, [.executionN isRunning isPaused])

/-- Source `setSpeed(speed)` (lines 359–361). -/
def setSpeed (speed : Nat) (st : SMState) : SMState :=
  { st with speed := speed }

/-- Source `logConsole(type, ...args)` (lines 366–368): pure notification, no state
change; the timestamp is display-only and omitted. -/
def logConsole (ctype : String) (args : List String) (st : SMState) :
    SMState × List Notif :=
  (st, [.consoleN ctype args])

/-- Source `addTimer(timerId)` (lines 373–375). -/
def addTimer (timerId : Nat) (st : SMState) : SMState :=
  { st with timers := st.timers ++ [timerId] }

/-- Source `reset()` (lines 380–412): cancel the tracked host timers (an effect
outside the state), replace the state with the initial literal except that
`code` and `speed` are carried over, and notify the reset on each topic. -/
def reset (st : SMState) : SMState × List Notif :=
  ({ code := st.code
     parsedCode := []
     callStack := []
     heap := []
     heapIdCounter := 0
     scopes := []
     scopeIdCounter := 0
     eventLoop := { webAPIs := [], callbackQueue := [], microtaskQueue := [] }
     currentLine := -1
     currentStep := 0
     isRunning := false
     isPaused := false
     speed := st.speed
     executionQueue := []
     timers := [] },
   [.callStackN "reset", .heapN "reset" none none, .scopesN "reset",
    .eventLoopN "reset", .currentLineN (-1), .executionN false false])

/-! ## The Executor (`src/unnamed/part_001`, lines 444–1087)

Executor-private mutable state (`instructions`, `pendingTimers`,
`pendingMicrotasks`, the global scope reference) plus the Store make up
`ExecState`; `events` is the stream of notifications emitted so far, and
`seed` supplies the clock-derived fresh values (`Date.now() + Math.random()`
ids and host timer handles). -/

structure ExecState where
  sm : SMState
  pendingTimers : List (Nat × List Instr)
  pendingMicrotasks : List (List Instr)
  globalScopeId : Option String
  events : List Notif
  seed : Nat
deriving Repr

/-- Absorb a Store call's result into the executor state. -/
def emitSM (r : SMState × List Notif) (es : ExecState) : ExecState :=
  { es with sm := r.1, events := es.events ++ r.2 }

/-- Absorb a Store call that also returns a value. -/
def emit3 (r : α × SMState × List Notif) (es : ExecState) : α × ExecState :=
  (r.1, emitSM r.2 es)

/-- Draw one fresh clock-derived value. -/
def freshId (es : ExecState) : Nat × ExecState :=
  (es.seed, { es with seed := es.seed + 1 })

/-- Source `delay()` (lines 982–988): schedule a host pacing timer and track its
handle via `addTimer`; the wait itself has no modelled effect. -/
def delayE (es : ExecState) : ExecState :=
  let (h, es') := freshId es
  { es' with sm := addTimer h es'.sm }

/-- Source `getCurrentScopeId()` (lines 935–938): innermost scope's id, else null. -/
def getCurrentScopeId (st : SMState) : Option String :=
  st.scopes.getLast?.map (·.id)

/-- The backward walk of `lookupVariable` (applied to the reversed list). -/
def lookupVariableRev : List Scope → String → Value
  | [], _ => .undefV
  | s :: rest, name =>
    match alGet s.vars name with
    | some r => r.value
    | none => lookupVariableRev rest name

/-- Source `lookupVariable(name)` (lines 896–908): walk the scope list from the
last (innermost) scope backward to index 0; `undefined` if unbound. -/
def lookupVariable (st : SMState) (name : String) : Value :=
  lookupVariableRev st.scopes.reverse name

/-- The backward walk of `findVariableScope`. -/
def findVariableScopeRev : List Scope → String → Option String
  | [], _ => none
  | s :: rest, name =>
    if (alGet s.vars name).isSome then some s.id
    else findVariableScopeRev rest name

/-- Source `findVariableScope(name)` (lines 913–923): innermost scope already
binding the name, else `getCurrentScopeId()`. -/
def findVariableScope (st : SMState) (name : String) : Option String :=
  match findVariableScopeRev st.scopes.reverse name with
  | some sid => some sid
  | none => getCurrentScopeId st

/-- Source `findFunction(name)` (lines 928–930), over the parsed top-level
instruction sequence. -/
def findFunction (instructions : List Instr) (name : String) : Option Instr :=
  instructions.find? (fun i =>
    match i with
    | .functionDeclaration n _ _ _ _ => n = name
    | _ => false)

/-- Source `getValueType(value)` (lines 943–950).  A `funcNode` is the parse-node
object `{type: 'function' | 'arrowFunction', ...}`, hence `'function'`; a
plain object with a `type` property holding one of those strings hits the
same `value.type` test.  A heap identity is a JS string. -/
def getValueType : Value → String
  | .nullV => "null"
  | .undefV => "undefined"
  | .list _ => "array"
  | .funcNode _ _ _ => "function"
  | .objV props =>
    match alGet props "type" with
    | some (.str s) =>
      if s = "function" ∨ s = "arrowFunction" then "function" else "object"
    | _ => "object"
  | .num _ => "number"
  | .str _ => "string"
  | .bool _ => "boolean"

/-- Source `String(value)` for the numeric literals the model carries. -/
def intStr (i : Int) : String :=
  if i < 0 then "-" ++ natDec i.natAbs else natDec i.natAbs

mutual

/-- Source `formatValue(value)` (lines 955–977).  An object carrying a
`type: 'function' | 'arrowFunction'` property — in particular a function
parse node — displays as `[Function]`. -/
def formatValue : Value → String
  | .undefV => "undefined"
  | .nullV => "null"
  | .str s => "\"" ++ s ++ "\""
  | .list vs =>
    if vs.length ≤ 3 then
      "[" ++ String.intercalate ", " (formatValueList vs) ++ "]"
    else "[" ++ natDec vs.length ++ " items]"
  | .funcNode _ _ _ => "[Function]"
  | .objV props =>
    let isFnNode :=
      match alGet props "type" with
      | some (.str s) => s == "function" || s == "arrowFunction"
      | _ => false
    if isFnNode then "[Function]"
    else if props.length ≤ 2 then
      "\x7b" ++ String.intercalate ", " (formatValueProps props) ++ "\x7d"
    else "\x7b...\x7d"
  | .num i => intStr i
  | .bool b => if b then "true" else "false"

/-- Source `value.map(formatValue)` over array elements. -/
def formatValueList : List Value → List String
  | [] => []
  | v :: vs => formatValue v :: formatValueList vs

/-- Source ``keys.map(k => `${k}: ${formatValue(value[k])}`)`` over object keys. -/
def formatValueProps : List (String × Value) → List String
  | [] => []
  | (k, v) :: ps => (k ++ ": " ++ formatValue v) :: formatValueProps ps

end

/-- The `typeof value === 'object' && value !== null` test of
`executeVariableDeclaration` (lines 606–614): the heap kind and payload for
composite values, `none` for inline scalars. -/
def heapPayload : Value → Option (String × HeapVal)
  | .list elems => some ("array", .valueV (.list elems))
  | .objV props => some ("object", .valueV (.objV props))
  | .funcNode k p b => some ("object", .valueV (.funcNode k p b))
  | _ => none

/-- Source `executeHoisting` (lines 556–558). -/
def executeHoisting (functions vars : List String) (es : ExecState) : ExecState :=
  emitSM (logConsole "info"
    ["Hoisting: Functions [" ++ String.intercalate ", " functions ++
     "], Vars [" ++ String.intercalate ", " vars ++ "]"] es.sm) es

/-- Source `executeFunctionDeclaration` (lines 563–583). -/
def executeFunctionDeclaration (name : String) (params : List String)
    (body : List Instr) (es : ExecState) : ExecState :=
  let (funcId, es1) := emit3
    (allocateHeap "function" (.funcV name params body (getCurrentScopeId es.sm))
      none es.sm) es
  let es2 := emitSM (addScopeVariable (getCurrentScopeId es1.sm) name
    (.str funcId) "function" "function" es1.sm) es1
  emitSM (updateFrameVariable name ("[Function: " ++ name ++ "]") "function" es2.sm) es2

/-- Source `executeHoistedVar` (lines 588–597). -/
def executeHoistedVar (name : String) (es : ExecState) : ExecState :=
  let es1 := emitSM (addScopeVariable (getCurrentScopeId es.sm) name
    .undefV "undefined" "var" es.sm) es
  emitSM (updateFrameVariable name "undefined" "undefined" es1.sm) es1

/-- Source `executeSetTimeout` (lines 719–740).  The host `setTimeout` that later
migrates the task to the callback queue is an environment event, modelled
by `timerFires` below; here only its handle registration is visible. -/
def executeSetTimeout (callback : List Instr) (delay : Nat) (es : ExecState) :
    ExecState :=
  let (taskId, es0) := freshId es
  let (apiId, es0a) := freshId es0
  let (_, es1) := emit3 (addToWebAPI apiId "setTimeout" callback delay "timer" es0a.sm) es0a
  let es2 := emitSM (logConsole "info"
    ["setTimeout registered (" ++ natDec delay ++ "ms)"] es1.sm) es1
  let (timerHandle, es3) := freshId es2
  let es4 := { es3 with sm := addTimer timerHandle es3.sm }
  { es4 with pendingTimers := es4.pendingTimers ++ [(taskId, callback)] }

/-- The deferred migration the host timer performs after
`min(delay, speed)`: `StateManager.moveToCallbackQueue(task.id)` (lines
734–736). -/
def timerFires (taskId : Nat) (es : ExecState) : ExecState :=
  (emit3 (moveToCallbackQueue taskId es.sm) es).2

/-- Source `executePromise` (lines 745–754). -/
def executePromise (callback : List Instr) (es : ExecState) : ExecState :=
  let (mid, es0) := freshId es
  let (_, es1) := emit3 (addToMicrotaskQueue mid "Promise.then" callback es0.sm) es0
  let es2 := emitSM (logConsole "info" ["Promise.then added to microtask queue"] es1.sm) es1
  { es2 with pendingMicrotasks := es2.pendingMicrotasks ++ [callback] }

/-- Source `executeNewObject` (lines 767–780). -/
def executeNewObject (declarationType name : String) (es : ExecState) : ExecState :=
  let (heapId, es1) := emit3 (allocateHeap "object" (.valueV (.objV [])) none es.sm) es
  let es2 := emitSM (addScopeVariable (getCurrentScopeId es1.sm) name
    (.str heapId) "object" declarationType es1.sm) es1
  emitSM (updateFrameVariable name "\x7b...\x7d" "object" es2.sm) es2

/-- The `func.params.forEach((param, i) => ...)` parameter binding of
`executeFunctionCall` (lines 673–677); `i` is the running index. -/
def bindParamsAux : List String → Nat → List Value → String → ExecState → ExecState
  | [], _, _, _, es => es
  | p :: rest, i, args, scopeId, es =>
    let value := args.getD i .undefV
    let es1 := emitSM (addScopeVariable (some scopeId) p value
      (getValueType value) "param" es.sm) es
    let es2 := emitSM (updateFrameVariable p (formatValue value)
      (getValueType value) es1.sm) es1
    bindParamsAux rest (i + 1) args scopeId es2

/-- Source `hasPendingTasks()` (lines 843–850). -/
def hasPendingTasks (es : ExecState) : Bool :=
  ¬ es.sm.eventLoop.webAPIs.isEmpty ||
  ¬ es.sm.eventLoop.callbackQueue.isEmpty ||
  ¬ es.sm.eventLoop.microtaskQueue.isEmpty ||
  ¬ es.pendingTimers.isEmpty ||
  ¬ es.pendingMicrotasks.isEmpty

mutual

/-- Source `resolveValue(valueExpr)` (lines 855–891).  `propertyAccess` falls into
the `default` branch and yields its raw text. -/
def resolveValue : Nat → List Instr → ValueExpr → ExecState →
    Option (Value × ExecState)
  | 0, _, _, _ => none
  | fuel + 1, instructions, ve, es =>
    match ve with
    | .num v => some (.num v, es)
    | .str v => some (.str v, es)
    | .bool v => some (.bool v, es)
    | .nullE => some (.nullV, es)
    | .undefinedE => some (.undefV, es)
    | .array elems =>
      (resolveList fuel instructions elems es).map (fun r => (.list r.1, r.2))
    | .object props =>
      (resolveProps fuel instructions props es).map (fun r => (.objV r.1, r.2))
    | .reference name => some (lookupVariable es.sm name, es)
    | .call name args =>
      (executeFunctionCall fuel instructions name args es).map (fun es' => (.undefV, es'))
    | .functionE params body => some (.funcNode "function" params body, es)
    | .arrowFunction params body => some (.funcNode "arrowFunction" params body, es)
    | .propertyAccess v => some (.str v, es)

/-- Element-wise resolution of an array literal (line 867). -/
def resolveList : Nat → List Instr → List ValueExpr → ExecState →
    Option (List Value × ExecState)
  | 0, _, _, _ => none
  | fuel + 1, instructions, ves, es =>
    match ves with
    | [] => some ([], es)
    | ve :: rest => do
      let (v, es1) ← resolveValue fuel instructions ve es
      let (vs, es2) ← resolveList fuel instructions rest es1
      some (v :: vs, es2)

/-- Entry-wise resolution of an object literal (lines 869–874). -/
def resolveProps : Nat → List Instr → List (String × ValueExpr) → ExecState →
    Option (List (String × Value) × ExecState)
  | 0, _, _, _ => none
  | fuel + 1, instructions, pves, es =>
    match pves with
    | [] => some ([], es)
    | (k, ve) :: rest => do
      let (v, es1) ← resolveValue fuel instructions ve es
      let (vs, es2) ← resolveProps fuel instructions rest es1
      some ((k, v) :: vs, es2)

/-- Source `executeVariableDeclaration` (lines 602–629). -/
def executeVariableDeclaration : Nat → List Instr → String → String →
    ValueExpr → ExecState → Option ExecState
  | 0, _, _, _, _, _ => none
  | fuel + 1, instructions, declarationType, name, ve, es => do
    let (value, es1) ← resolveValue fuel instructions ve es
    let valueType := getValueType value
    let (storedValue, es2) :=
      match heapPayload value with
      | some (htype, hv) =>
        let (heapId, es') := emit3 (allocateHeap htype hv none es1.sm) es1
        (Value.str heapId, es')
      | none => (value, es1)
    let es3 := emitSM (addScopeVariable (getCurrentScopeId es2.sm) name
      storedValue valueType declarationType es2.sm) es2
    some (emitSM (updateFrameVariable name (formatValue value) valueType es3.sm) es3)

/-- Source `executeAssignment` (lines 634–645). -/
def executeAssignment : Nat → List Instr → String → ValueExpr → ExecState →
    Option ExecState
  | 0, _, _, _, _ => none
  | fuel + 1, instructions, name, ve, es => do
    let (value, es1) ← resolveValue fuel instructions ve es
    let valueType := getValueType value
    let es2 := emitSM (updateScopeVariable (findVariableScope es1.sm name)
      name value es1.sm) es1
    some (emitSM (updateFrameVariable name (formatValue value) valueType es2.sm) es2)

/-- Source `executeConsole` (lines 710–714). -/
def executeConsole : Nat → List Instr → String → List ValueExpr → ExecState →
    Option ExecState
  | 0, _, _, _, _ => none
  | fuel + 1, instructions, method, args, es => do
    let (argVals, es1) ← resolveList fuel instructions args es
    let formatted := String.intercalate " " (argVals.map formatValue)
    some (emitSM (logConsole method [formatted] es1.sm) es1)

/-- Source `executeReturn` (lines 759–762). -/
def executeReturn : Nat → List Instr → ValueExpr → ExecState → Option ExecState
  | 0, _, _, _ => none
  | fuel + 1, instructions, ve, es => do
    let (value, es1) ← resolveValue fuel instructions ve es
    some (emitSM (logConsole "log" ["Return: " ++ formatValue value] es1.sm) es1)

/-- Source `executeFunctionCall` (lines 650–692).  When `findFunction` misses, one
console error is logged and the call is skipped; otherwise scope and frame
are set up, parameters bound, the body run, and both torn down. -/
def executeFunctionCall : Nat → List Instr → String → List ValueExpr →
    ExecState → Option ExecState
  | 0, _, _, _, _ => none
  | fuel + 1, instructions, name, args, es =>
    match findFunction instructions name with
    | none =>
      some (emitSM (logConsole "error"
        ["ReferenceError: " ++ name ++ " is not defined"] es.sm) es)
    | some func =>
      match func with
      | .functionDeclaration _ params body funcLine _ => do
        let (argVals, es1) ← resolveList fuel instructions args es
        let (funcScope, es2) := emit3 (createScope name "function"
          (getCurrentScopeId es1.sm) es1.sm) es1
        let (fid, es2a) := freshId es2
        let (_, es3) := emit3 (pushCallStack fid
          ⟨name, "function", [], "window", funcLine⟩ es2a.sm) es2a
        let es4 := bindParamsAux params 0 argVals funcScope.id es3
        let es5 ← (if body.isEmpty then some es4
                   else executeBodyLoop fuel instructions body funcLine es4)
        let es6 := emitSM (popCallStack es5.sm).2 es5
        some (emitSM (destroyScope funcScope.id es6.sm) es6)
      | _ => some es

/-- The body loop of `executeFunctionCall` (lines 680–687):
`setCurrentLine(bodyInst.line || func.line)`, execute, pacing delay. -/
def executeBodyLoop : Nat → List Instr → List Instr → Nat → ExecState →
    Option ExecState
  | 0, _, _, _, _ => none
  | _ + 1, _, [], _, es => some es
  | fuel + 1, instructions, bi :: rest, funcLine, es => do
    let line := if bi.line = 0 then funcLine else bi.line
    let es1 := emitSM (setCurrentLine (line : Int) es.sm) es
    let es2 ← executeInstruction fuel instructions bi es1
    executeBodyLoop fuel instructions rest funcLine (delayE es2)

/-- Source `executeInstruction(instruction)` (lines 499–551): the dispatch switch. -/
def executeInstruction : Nat → List Instr → Instr → ExecState → Option ExecState
  | 0, _, _, _ => none
  | fuel + 1, instructions, instruction, es =>
    match instruction with
    | .hoistingPhase fs vs _ => some (executeHoisting fs vs es)
    | .functionDeclaration name params body _ _ =>
      some (executeFunctionDeclaration name params body es)
    | .hoistedVar name _ _ => some (executeHoistedVar name es)
    | .variableDeclaration dt name ve _ =>
      executeVariableDeclaration fuel instructions dt name ve es
    | .assignment name ve _ => executeAssignment fuel instructions name ve es
    | .functionCall name args _ => executeFunctionCall fuel instructions name args es
    | .methodCall object method args _ =>
      if object = "console" then executeConsole fuel instructions method args es
      else some es
    | .consoleOp method args _ => executeConsole fuel instructions method args es
    | .setTimeoutI callback delay _ => some (executeSetTimeout callback delay es)
    | .promiseI callback _ => some (executePromise callback es)
    | .returnI ve _ => executeReturn fuel instructions ve es
    | .newObject dt name _ _ _ => some (executeNewObject dt name es)

end

/-- Source `pendingMicrotasks.shift()` (line 802). -/
def shiftPendingMicro (es : ExecState) : ExecState :=
  { es with pendingMicrotasks := es.pendingMicrotasks.tail }

/-- Source `pendingTimers.shift()` (line 834). -/
def shiftPendingTimers (es : ExecState) : ExecState :=
  { es with pendingTimers := es.pendingTimers.tail }

/-- The plain `for (const inst of callbackInstructions)` loops of
`processEventLoop` (lines 797–800 and 826–829): execute, pacing delay. -/
def execSeq : Nat → List Instr → List Instr → ExecState → Option ExecState
  | 0, _, _, _ => none
  | _ + 1, _, [], es => some es
  | fuel + 1, instructions, i :: rest, es => do
    let es1 ← executeInstruction fuel instructions i es
    execSeq fuel instructions rest (delayE es1)

/-- The microtask-draining `while` of `processEventLoop` (lines 789–803).
`snapLen` is `state.eventLoop.microtaskQueue.length` of the `getState()`
snapshot taken once at entry (line 786): the loop condition re-reads this
*frozen* length (never the live queue), together with the live
`pendingMicrotasks`. -/
def microtaskLoop : Nat → List Instr → Nat → ExecState → Option ExecState
  | 0, _, _, _ => none
  | fuel + 1, instructions, snapLen, es =>
    if snapLen > 0 ∨ es.pendingMicrotasks.length > 0 then
      let (task, es1) := emit3 (processNextMicrotask es.sm) es
      match task with
      | some t =>
        if ¬ t.callback.isEmpty then do
          let es2 := emitSM (logConsole "info"
            ["Executing microtask: " ++ t.name] es1.sm) es1
          let es3 := delayE es2
          let es4 ← execSeq fuel instructions t.callback es3
          microtaskLoop fuel instructions snapLen (shiftPendingMicro es4)
        else microtaskLoop fuel instructions snapLen (shiftPendingMicro es1)
      | none => microtaskLoop fuel instructions snapLen (shiftPendingMicro es1)
    else some es

/-- The at-most-one-callback phase of `processEventLoop` (lines 806–835);
its `getState()` snapshot is taken afresh, so the condition reads current
queue contents. -/
def callbackPhase (fuel : Nat) (instructions : List Instr) (es : ExecState) :
    Option ExecState :=
  if es.sm.eventLoop.callbackQueue.length > 0 ∨ es.pendingTimers.length > 0 then
    let (callback, es1) := emit3 (processNextCallback es.sm) es
    match callback with
    | some cb =>
      if ¬ cb.callback.isEmpty then do
        let es2 := emitSM (logConsole "info"
          ["Executing callback: " ++ cb.name] es1.sm) es1
        let (cbScope, es3) := emit3 (createScope "setTimeout callback"
          "function" es2.globalScopeId es2.sm) es2
        let (fid, es3a) := freshId es3
        let (_, es4) := emit3 (pushCallStack fid
          ⟨"setTimeout callback", "function", [], "window", 0⟩ es3a.sm) es3a
        let es5 := delayE es4
        let es6 ← execSeq fuel instructions cb.callback es5
        let es7 := emitSM (popCallStack es6.sm).2 es6
        let es8 := emitSM (destroyScope cbScope.id es7.sm) es7
        some (shiftPendingTimers es8)
      else some (shiftPendingTimers es1)
    | none => some (shiftPendingTimers es1)
  else some es

/-- Source `processEventLoop()` (lines 785–838): one draining pass — the microtask
`while` against the frozen snapshot length, then at most one callback.
(The boolean it returns, `hasPendingTasks()`, is ignored by its caller.) -/
def processEventLoop (fuel : Nat) (instructions : List Instr) (es : ExecState) :
    Option ExecState :=
  let snapLen := (getState es.sm).eventLoop.microtaskQueue.length
  (microtaskLoop fuel instructions snapLen es).bind (callbackPhase fuel instructions)

/-- Source `init(parsedInstructions)` (lines 458–474): fresh global scope and the
global execution context frame. -/
def initExecutor (seed : Nat) (st : SMState) : ExecState :=
  let es0 : ExecState :=
    { sm := st, pendingTimers := [], pendingMicrotasks := []
      globalScopeId := none, events := [], seed }
  let (gscope, es1) := emit3 (createScope "Global" "global" none es0.sm) es0
  let es2 := { es1 with globalScopeId := some gscope.id }
  let (fid, es2a) := freshId es2
  (emit3 (pushCallStack fid
    ⟨"Global Execution Context", "global", [], "window", 0⟩ es2a.sm) es2a).2

/-- The per-instruction work of `step()` (lines 479–494) iterated over the
top-level sequence as `run()` (lines 993–1011) does, with the pacing delay
between steps: highlight the line, bump the step counter, execute. -/
def stepLoop : Nat → List Instr → List Instr → ExecState → Option ExecState
  | 0, _, _, _ => none
  | _ + 1, _, [], es => some es
  | fuel + 1, instructions, i :: rest, es => do
    let es1 := emitSM (setCurrentLine (i.line : Int) es.sm) es
    let es2 := { es1 with sm := incrementStep es1.sm }
    let es3 ← executeInstruction fuel instructions i es2
    stepLoop fuel instructions rest (delayE es3)

/-- Source `run()` to the point of interest for the event-loop claims: all
top-level instructions, then the single `processEventLoop` pass that the
first exhausted `step()` performs (line 482). -/
def runProgram (fuel : Nat) (instructions : List Instr) (es : ExecState) :
    Option ExecState :=
  (stepLoop fuel instructions instructions es).bind
    (processEventLoop fuel instructions)

/-- The console notifications emitted so far, in order. -/
def consoleEvents (es : ExecState) : List (String × List String) :=
  es.events.filterMap (fun n =>
    match n with
    | .consoleN t a => some (t, a)
    | _ => none)

/-! ## Reference semantics of `getState` (for claim C7)

`getState()` (stateManager.js lines 74–86) rebuilds only the top-level
containers: `[...state.callStack]` is a fresh array whose *elements are the
same frame objects* the Store holds.  The value-level model above cannot
express that sharing, so here JS object identity is made explicit for the
call stack (the other collections are copied the same way): frame records
live in an arena, a reference is an arena index, and both the Store's
`callStack` and a snapshot's `callStack` are arrays of references. -/

/-- Placeholder for an out-of-arena read (never reached in valid states). -/
def dummyFrame : Frame :=
  { id := 0, name := "", type := "", vars := [], thisBinding := ""
    line := 0, isActive := false }

/-- The Store's frame memory: the arena of frame objects plus
`state.callStack` as an array of references into it. -/
structure FrameStore where
  arena : List Frame
  callStack : List Nat
deriving Repr, DecidableEq

/-- Dereference one frame record. -/
def readFrame (mem : FrameStore) (r : Nat) : Frame :=
  mem.arena.getD r dummyFrame

/-- The snapshot `getState()` returns, restricted to the call stack:
`callStack: [...state.callStack]` — a *fresh array of the same
references*. -/
structure StateSnapshot where
  callStack : List Nat
deriving Repr, DecidableEq

/-- Source `getState()` under reference semantics. -/
def getStateRef (mem : FrameStore) : StateSnapshot :=
  { callStack := mem.callStack }

/-- What a holder of the snapshot observes when reading its frames against
the Store's current memory. -/
def snapFrames (mem : FrameStore) (snap : StateSnapshot) : List Frame :=
  snap.callStack.map (readFrame mem)

/-- The frames the Store's own call stack denotes. -/
def framesOf (mem : FrameStore) : List Frame :=
  snapFrames mem (getStateRef mem)

/-- Source `pushCallStack(frame)` (lines 106–125) under reference semantics: the
`state.callStack[len - 1].isActive = false` write mutates the referenced
frame *object* in place (visible through every array holding the
reference); the new frame object is appended to the arena and its
reference pushed. -/
def pushCallStackRef (id : Nat) (frame : FrameArg) (mem : FrameStore) :
    FrameStore :=
  let arena1 :=
    match mem.callStack.getLast? with
    | some r => mem.arena.set r { readFrame mem r with isActive := false }
    | none => mem.arena
  { arena := arena1 ++ [mkNewFrame id frame]
    callStack := mem.callStack ++ [arena1.length] }

/-! ## Claim C2 — the hoisting pass -/

/-- The names of the top-level function declarations present, in order
(the claim's "names of the top-level function declarations"). -/
def topLevelFunctionNames (l : List Instr) : List String :=
  l.filterMap (fun i =>
    match i with
    | .functionDeclaration n _ _ _ _ => some n
    | _ => none)

/-- The names of the top-level `var` declarations present, in order. -/
def topLevelVarNames (l : List Instr) : List String :=
  l.filterMap (fun i =>
    match i with
    | .variableDeclaration dt n _ _ => if dt = "var" then some n else none
    | _ => none)

/-- A hoisted instruction: a function declaration re-emitted with
`hoisted: true`, or a value-less `hoistedVar` placeholder. -/
def isHoistedInstr : Instr → Bool
  | .functionDeclaration _ _ _ _ h => h
  | .hoistedVar _ _ _ => true
  | _ => false

/-- The synthetic marker instruction. -/
def isHoistingMarker : Instr → Bool
  | .hoistingPhase _ _ _ => true
  | _ => false

theorem funcNames_of_hoisted (l : List Instr) :
    (hoistedFunctionDecls l).filterMap (fun i =>
      match i with
      | .functionDeclaration n _ _ _ _ => some n
      | _ => none) = topLevelFunctionNames l := by
  simp only [hoistedFunctionDecls, topLevelFunctionNames, List.filterMap_filterMap]
  apply List.filterMap_congr
  intro i _
  cases i <;> rfl

theorem varNames_of_hoisted (l : List Instr) :
    (hoistedVarDecls l).filterMap (fun i =>
      match i with
      | .hoistedVar n _ _ => some n
      | _ => none) = topLevelVarNames l := by
  simp only [hoistedVarDecls, topLevelVarNames, List.filterMap_filterMap]
  apply List.filterMap_congr
  intro i _
  cases i with
  | variableDeclaration dt n v ln => by_cases h : dt = "var" <;> simp [h]
  | _ => rfl

theorem hoistedFunctionDecls_mem {l : List Instr} {i : Instr}
    (h : i ∈ hoistedFunctionDecls l) : isHoistedInstr i = true := by
  simp only [hoistedFunctionDecls, List.mem_filterMap] at h
  obtain ⟨a, _, ha⟩ := h
  cases a <;> simp only [reduceCtorEq, Option.some.injEq] at ha
  subst ha
  rfl

theorem hoistedVarDecls_mem {l : List Instr} {i : Instr}
    (h : i ∈ hoistedVarDecls l) : isHoistedInstr i = true := by
  simp only [hoistedVarDecls, List.mem_filterMap] at h
  obtain ⟨a, _, ha⟩ := h
  cases a with
  | variableDeclaration dt n v ln =>
    by_cases hdt : dt = "var"
    · simp only [hdt, if_pos, Option.some.injEq] at ha
      subst ha
      rfl
    · simp [hdt] at ha
  | _ => simp at ha

theorem processHoisting_marker_present {l : List Instr}
    (hsome : l.any (fun i => isFunctionDeclaration i || isVarDeclaration i) = true) :
    (hoistedFunctionDecls l).length > 0 ∨ (hoistedVarDecls l).length > 0 := by
  simp only [List.any_eq_true, Bool.or_eq_true] at hsome
  obtain ⟨i, hmem, hi⟩ := hsome
  cases hi with
  | inl hf =>
    left
    cases i <;> simp [isFunctionDeclaration] at hf
    case functionDeclaration n p b ln h =>
      have : Instr.functionDeclaration n p b ln true ∈ hoistedFunctionDecls l := by
        simp only [hoistedFunctionDecls, List.mem_filterMap]
        exact ⟨_, hmem, rfl⟩
      exact List.length_pos.mpr (fun hnil => by simp [hnil] at this)
  | inr hv =>
    right
    cases i <;> simp [isVarDeclaration] at hv
    case variableDeclaration dt n v ln =>
      have : Instr.hoistedVar n ln ln ∈ hoistedVarDecls l := by
        simp only [hoistedVarDecls, List.mem_filterMap]
        exact ⟨_, hmem, by simp [hv]⟩
      exact List.length_pos.mpr (fun hnil => by simp [hnil] at this)

/-- Positional form of "every hoisted item precedes every non-hoisted
instruction": in a list of shape `marker :: hoisted ++ rest`, a position
holding a hoisted instruction lies strictly before every position holding
an ordinary (non-hoisted, non-marker) one. -/
theorem hoisted_precede {m : Instr} {A R out : List Instr}
    (hout : out = m :: A ++ R)
    (hmh : isHoistedInstr m = false) (hmm : isHoistingMarker m = true)
    (hA : ∀ i ∈ A, isHoistedInstr i = true)
    (hR : ∀ i ∈ R, isHoistedInstr i = false) :
    ∀ j k, (hj : j < out.length) → (hk : k < out.length) →
      isHoistedInstr (out.get ⟨j, hj⟩) = true →
      isHoistedInstr (out.get ⟨k, hk⟩) = false →
      isHoistingMarker (out.get ⟨k, hk⟩) = false →
      j < k := by
  subst hout
  intro j k hj hk hjh hkh hkm
  cases j with
  | zero =>
    have h0 : isHoistedInstr m = true := hjh
    rw [hmh] at h0
    cases h0
  | succ j' =>
    cases k with
    | zero =>
      have h0 : isHoistingMarker m = false := hkm
      rw [hmm] at h0
      cases h0
    | succ k' =>
      have hj' : j' < (A ++ R).length := Nat.lt_of_succ_lt_succ hj
      have hk' : k' < (A ++ R).length := Nat.lt_of_succ_lt_succ hk
      have hjh : isHoistedInstr ((A ++ R).get ⟨j', hj'⟩) = true := hjh
      have hkh : isHoistedInstr ((A ++ R).get ⟨k', hk'⟩) = false := hkh
      have hkm : isHoistingMarker ((A ++ R).get ⟨k', hk'⟩) = false := hkm
      have hjA : j' < A.length := by
        by_contra hge
        push_neg at hge
        have hlt : j' - A.length < R.length := by
          simp only [List.length_append] at hj'; omega
        have heq : (A ++ R).get ⟨j', hj'⟩ = R.get ⟨j' - A.length, hlt⟩ := by
          simp only [List.get_eq_getElem]
          exact List.getElem_append_right hge
        rw [heq] at hjh
        have := hR _ (List.get_mem R (j' - A.length) hlt)
        rw [this] at hjh
        cases hjh
      have hkA : A.length ≤ k' := by
        by_contra hlt
        push_neg at hlt
        have heq : (A ++ R).get ⟨k', hk'⟩ = A.get ⟨k', hlt⟩ := by
          simp only [List.get_eq_getElem]
          exact List.getElem_append_left hlt
        rw [heq] at hkh
        have := hA _ (List.get_mem A k' hlt)
        rw [this] at hkh
        cases hkh
      omega

/-- C2 (counterexample): the claim asserts *every* accepted snippet's
instruction sequence is prefixed with a hoisting marker, but
`processHoisting` only builds the marker when at least one function
declaration or `var` declaration exists (the
`if (functionDeclarations.length > 0 || varDeclarations.length > 0)` guard,
lines 392–399).  A snippet scanning to a single console instruction — e.g.
`console.log("hi")` — passes through unchanged, with no marker. -/
theorem processHoisting_no_marker_counterexample :
    processHoisting [Instr.consoleOp "log" [ValueExpr.str "hi"] 1]
      = [Instr.consoleOp "log" [ValueExpr.str "hi"] 1] ∧
    (processHoisting [Instr.consoleOp "log" [ValueExpr.str "hi"] 1]).all
      (fun i => !(isHoistingMarker i)) = true :=
  ⟨rfl, rfl⟩

/-- C2 (amended): whenever the scanned sequence contains at least one
top-level function declaration or `var` declaration, `processHoisting`
prefixes exactly one synthetic marker whose function and var lists are
exactly the names of those declarations in order, followed by the hoisted
function declarations and value-less `var` placeholders, followed by the
non-hoisted instructions; positionally, every hoisted instruction precedes
every non-hoisted, non-marker instruction.  (`hscan` states the shape the
line scanner guarantees: it never emits markers, `hoistedVar`s, or
`hoisted: true` declarations itself.) -/
theorem processHoisting_amended (instrs : List Instr)
    (hscan : ∀ i ∈ instrs, isHoistedInstr i = false ∧ isHoistingMarker i = false)
    (hsome : instrs.any (fun i => isFunctionDeclaration i || isVarDeclaration i) = true) :
    processHoisting instrs =
      Instr.hoistingPhase (topLevelFunctionNames instrs) (topLevelVarNames instrs) 0 ::
        (hoistedFunctionDecls instrs ++ hoistedVarDecls instrs ++ restInstructions instrs)
    ∧ (∀ i ∈ hoistedFunctionDecls instrs ++ hoistedVarDecls instrs, isHoistedInstr i = true)
    ∧ (∀ i ∈ restInstructions instrs, isHoistedInstr i = false ∧ isHoistingMarker i = false)
    ∧ (∀ j k, (hj : j < (processHoisting instrs).length) →
        (hk : k < (processHoisting instrs).length) →
        isHoistedInstr ((processHoisting instrs).get ⟨j, hj⟩) = true →
        isHoistedInstr ((processHoisting instrs).get ⟨k, hk⟩) = false →
        isHoistingMarker ((processHoisting instrs).get ⟨k, hk⟩) = false →
        j < k) := by
  have hmarker := processHoisting_marker_present hsome
  have heq : processHoisting instrs =
      Instr.hoistingPhase (topLevelFunctionNames instrs) (topLevelVarNames instrs) 0 ::
        (hoistedFunctionDecls instrs ++ hoistedVarDecls instrs ++ restInstructions instrs) := by
    simp only [processHoisting, if_pos hmarker, funcNames_of_hoisted,
      varNames_of_hoisted, List.singleton_append, List.cons_append,
      List.append_assoc, List.nil_append]
  have hhoisted : ∀ i ∈ hoistedFunctionDecls instrs ++ hoistedVarDecls instrs,
      isHoistedInstr i = true := by
    intro i hi
    rcases List.mem_append.mp hi with hf | hv
    · exact hoistedFunctionDecls_mem hf
    · exact hoistedVarDecls_mem hv
  have hrest : ∀ i ∈ restInstructions instrs,
      isHoistedInstr i = false ∧ isHoistingMarker i = false := by
    intro i hi
    exact hscan i (List.mem_of_mem_filter hi)
  refine ⟨heq, hhoisted, hrest, ?_⟩
  have heq' : processHoisting instrs =
      Instr.hoistingPhase (topLevelFunctionNames instrs) (topLevelVarNames instrs) 0 ::
        ((hoistedFunctionDecls instrs ++ hoistedVarDecls instrs) ++ restInstructions instrs) := by
    rw [heq, List.append_assoc]
  exact hoisted_precede heq' rfl rfl hhoisted (fun i hi => (hrest i hi).1)

/-- Witness for `processHoisting_amended` at a concrete scanned sequence. -/
theorem processHoisting_amended_witness :
    processHoisting
      [Instr.variableDeclaration "var" "x" (ValueExpr.num 5) 3,
       Instr.functionDeclaration "greet" [] [] 5 false,
       Instr.consoleOp "log" [ValueExpr.reference "x"] 1]
      = [Instr.hoistingPhase ["greet"] ["x"] 0,
         Instr.functionDeclaration "greet" [] [] 5 true,
         Instr.hoistedVar "x" 3 3,
         Instr.variableDeclaration "var" "x" (ValueExpr.num 5) 3,
         Instr.consoleOp "log" [ValueExpr.reference "x"] 1] := by
  have h := processHoisting_amended
    [Instr.variableDeclaration "var" "x" (ValueExpr.num 5) 3,
     Instr.functionDeclaration "greet" [] [] 5 false,
     Instr.consoleOp "log" [ValueExpr.reference "x"] 1]
    (by intro i hi; fin_cases hi <;> exact ⟨rfl, rfl⟩) rfl
  exact h.1.trans rfl

/-! ## Claim C3 — the active-frame invariant -/

/-- The Store operations that touch the call stack: `pushCallStack`,
`popCallStack`, `updateFrameVariable`, `reset` (the only mutators of
`state.callStack`; every other operation leaves it untouched). -/
inductive StackOp where
  | pushOp (id : Nat) (frame : FrameArg)
  | popOp
  | updateVarOp (name value vtype : String)
  | resetOp

/-- Apply one call-stack operation (discarding returns/notifications). -/
def applyStackOp (st : SMState) : StackOp → SMState
  | .pushOp id f => (pushCallStack id f st).2.1
  | .popOp => (popCallStack st).2.1
  | .updateVarOp n v t => (updateFrameVariable n v t st).1
  | .resetOp => (reset st).1

/-- A session: any sequence of call-stack operations from a state. -/
def runStackOps (ops : List StackOp) (st : SMState) : SMState :=
  ops.foldl applyStackOp st

/-- The claim's invariant: every frame below the top is inactive, and the
top-of-stack frame (when one exists) is active — hence at most one frame is
ever active, and it is the most recently pushed not-yet-popped one. -/
def activeInvariant (stack : List Frame) : Prop :=
  (∀ f ∈ stack.dropLast, f.isActive = false) ∧
  (∀ f, stack.getLast? = some f → f.isActive = true)

theorem deactivateTop_concat (l : List Frame) (f : Frame) :
    deactivateTop (l ++ [f]) = l ++ [{ f with isActive := false }] := by
  induction l with
  | nil => rfl
  | cons a l ih =>
    cases l with
    | nil => rfl
    | cons b l' =>
      simp only [List.cons_append, deactivateTop] at ih ⊢
      exact congrArg (List.cons a) ih

theorem activateTop_concat (l : List Frame) (f : Frame) :
    activateTop (l ++ [f]) = l ++ [{ f with isActive := true }] := by
  induction l with
  | nil => rfl
  | cons a l ih =>
    cases l with
    | nil => rfl
    | cons b l' =>
      simp only [List.cons_append, activateTop] at ih ⊢
      exact congrArg (List.cons a) ih

theorem dropLast_concat_getLast {l : List Frame} {g : Frame}
    (h : l.getLast? = some g) : l.dropLast ++ [g] = l := by
  have hnil : l ≠ [] := by
    intro hn; rw [hn] at h; simp at h
  have h1 := List.dropLast_append_getLast hnil
  have h2 : l.getLast hnil = g := by
    have h3 := List.getLast?_eq_getLast l hnil
    rw [h3] at h
    exact Option.some_inj.mp h
  rw [h2] at h1
  exact h1

theorem mem_deactivateTop_false {stack : List Frame}
    (hinv : activeInvariant stack) :
    ∀ f ∈ deactivateTop stack, f.isActive = false := by
  cases hne : stack.getLast? with
  | none =>
    rw [List.getLast?_eq_none_iff] at hne
    subst hne
    intro f hf
    simp [deactivateTop] at hf
  | some g =>
    have hsplit := dropLast_concat_getLast hne
    intro f hf
    rw [← hsplit, deactivateTop_concat] at hf
    rcases List.mem_append.mp hf with hd | hl
    · exact hinv.1 f hd
    · simp only [List.mem_singleton] at hl
      rw [hl]

theorem pushCallStack_invariant {st : SMState} (id : Nat) (frame : FrameArg)
    (hinv : activeInvariant st.callStack) :
    activeInvariant (pushCallStack id frame st).2.1.callStack := by
  constructor
  · intro f hf
    simp only [pushCallStack, List.dropLast_concat] at hf
    exact mem_deactivateTop_false hinv f hf
  · intro f hf
    simp only [pushCallStack, List.getLast?_concat, Option.some_inj] at hf
    rw [← hf]
    rfl

theorem popCallStack_invariant {st : SMState}
    (hinv : activeInvariant st.callStack) :
    activeInvariant (popCallStack st).2.1.callStack := by
  constructor
  · intro f hf
    simp only [popCallStack] at hf
    cases hd : (st.callStack.dropLast).getLast? with
    | none =>
      rw [List.getLast?_eq_none_iff] at hd
      rw [hd] at hf
      simp [activateTop] at hf
    | some g =>
      have hsplit := dropLast_concat_getLast hd
      rw [← hsplit, activateTop_concat, List.dropLast_concat] at hf
      exact hinv.1 f ((List.dropLast_subset _) hf)
  · intro f hf
    simp only [popCallStack] at hf
    cases hd : (st.callStack.dropLast).getLast? with
    | none =>
      rw [List.getLast?_eq_none_iff] at hd
      rw [hd] at hf
      simp [activateTop] at hf
    | some g =>
      have hsplit := dropLast_concat_getLast hd
      rw [← hsplit, activateTop_concat, List.getLast?_concat, Option.some_inj] at hf
      rw [← hf]

theorem updateFrameVariable_invariant {st : SMState} (n v t : String)
    (hinv : activeInvariant st.callStack) :
    activeInvariant (updateFrameVariable n v t st).1.callStack := by
  unfold updateFrameVariable
  cases hlast : st.callStack.getLast? with
  | none => exact hinv
  | some topFrame =>
    constructor
    · intro f hf
      simp only [List.dropLast_concat] at hf
      exact hinv.1 f hf
    · intro f hf
      simp only [List.getLast?_concat, Option.some_inj] at hf
      have : topFrame.isActive = true := hinv.2 topFrame hlast
      rw [← hf]
      exact this

/-- C3: starting from the initial (empty) call stack, after any sequence of
call-stack operations every frame below the top is inactive and the top
frame is active — at most one frame ever has `isActive = true`, and it is
the most recently pushed not-yet-popped one; pushing deactivates the
previous top and popping reactivates the new top by construction. -/
theorem callStack_active_invariant (ops : List StackOp) :
    activeInvariant (runStackOps ops initialSMState).callStack := by
  suffices h : ∀ st, activeInvariant st.callStack →
      activeInvariant (runStackOps ops st).callStack by
    refine h initialSMState ⟨?_, ?_⟩ <;> simp [initialSMState]
  induction ops with
  | nil => intro st h; exact h
  | cons op rest ih =>
    intro st h
    refine ih _ ?_
    cases op with
    | pushOp id f => exact pushCallStack_invariant id f h
    | popOp => exact popCallStack_invariant h
    | updateVarOp n v t => exact updateFrameVariable_invariant n v t h
    | resetOp =>
      constructor <;> simp [applyStackOp, reset]

/-! ## Claim C4 — scope-chain resolution -/

/-- C4: `lookupVariable` walks the scope list from the last (innermost)
scope backward to index 0 (that is its definition: the backward `for` loop
of lines 896–908 is the forward walk of the reversed list).  Consequently,
when the innermost scope binds the name the binding's value is returned —
an inner binding shadows any outer one — and when the innermost scope does
not bind it, resolution continues through the enclosing scopes, so a
variable declared in an enclosing scope is visible, with its bound value,
from the nested scope. -/
theorem lookupVariable_scope_chain (st : SMState) (outer : List Scope)
    (inner : Scope) (name : String) (h : st.scopes = outer ++ [inner]) :
    (∀ r, alGet inner.vars name = some r → lookupVariable st name = r.value)
    ∧ (alGet inner.vars name = none →
        lookupVariable st name = lookupVariable { st with scopes := outer } name) := by
  constructor
  · intro r hr
    simp only [lookupVariable, h, List.reverse_append, List.reverse_singleton,
      List.singleton_append, lookupVariableRev, hr]
  · intro hn
    simp only [lookupVariable, h, List.reverse_append, List.reverse_singleton,
      List.singleton_append, lookupVariableRev, hn]

/-- Witness scope for `lookupVariable_scope_chain`: an enclosing scope. -/
def exOuterScope : Scope :=
  { id := "scope_1", name := "outer", type := "function", parentId := none
    vars := [("x", ⟨.num 1, "number", "var"⟩), ("y", ⟨.num 7, "number", "var"⟩)]
    createdAt := 0 }

/-- Witness scope for `lookupVariable_scope_chain`: a nested scope
shadowing `x`. -/
def exInnerScope : Scope :=
  { id := "scope_2", name := "inner", type := "function"
    parentId := some "scope_1"
    vars := [("x", ⟨.num 2, "number", "var"⟩)], createdAt := 0 }

/-- Witness: with `x` bound in both scopes and `y` only in the enclosing
one, lookup from the nested scope returns the inner `x` and the outer `y`. -/
theorem lookupVariable_scope_chain_witness :
    lookupVariable { initialSMState with scopes := [exOuterScope, exInnerScope] } "x"
      = Value.num 2
    ∧ lookupVariable { initialSMState with scopes := [exOuterScope, exInnerScope] } "y"
      = Value.num 7 := by
  have hx := lookupVariable_scope_chain
    { initialSMState with scopes := [exOuterScope, exInnerScope] }
    [exOuterScope] exInnerScope "x" rfl
  have hy := lookupVariable_scope_chain
    { initialSMState with scopes := [exOuterScope, exInnerScope] }
    [exOuterScope] exInnerScope "y" rfl
  exact ⟨hx.1 ⟨.num 2, "number", "var"⟩ rfl, (hy.2 rfl).trans rfl⟩

/-! ## Claim C5 — heap identity uniqueness -/

theorem string_append_left_cancel {s a b : String} (h : s ++ a = s ++ b) :
    a = b := by
  have hd := congrArg String.data h
  simp only [String.data_append] at hd
  exact String.ext (List.append_cancel_left hd)

/-- The identity `` `ref_${n}` `` a default-id allocation mints. -/
def mkRefId (n : Nat) : String := "ref_" ++ natDec n

theorem mkRefId_injective : Function.Injective mkRefId := fun _ _ h =>
  natDec_injective (string_append_left_cancel h)

/-- One session's worth of heap operations, as the interpreter issues them:
allocations (always with the default identity — no call site in the
repository passes an explicit `refId`) and explicit deallocations. -/
inductive HeapOp where
  | allocOp (htype : String) (value : HeapVal)
  | deallocOp (id : String)

/-- Run the operations, collecting the allocated identities in order. -/
def runHeapOps : List HeapOp → SMState → SMState × List String
  | [], st => (st, [])
  | .allocOp t v :: rest, st =>
    let r := allocateHeap t v none st
    let r' := runHeapOps rest r.2.1
    (r'.1, r.1 :: r'.2)
  | .deallocOp id :: rest, st => runHeapOps rest (deallocateHeap id st).1

/-- The number of allocations in a session. -/
def countAllocs : List HeapOp → Nat
  | [] => 0
  | .allocOp _ _ :: rest => countAllocs rest + 1
  | .deallocOp _ :: rest => countAllocs rest

theorem deallocateHeap_counter (id : String) (st : SMState) :
    ((deallocateHeap id st).1).heapIdCounter = st.heapIdCounter := by
  unfold deallocateHeap
  cases alGet st.heap id <;> rfl

theorem runHeapOps_ids (ops : List HeapOp) (st : SMState) :
    (runHeapOps ops st).2
      = (List.range' (st.heapIdCounter + 1) (countAllocs ops)).map mkRefId := by
  induction ops generalizing st with
  | nil => rfl
  | cons op rest ih =>
    cases op with
    | allocOp t v =>
      simp only [runHeapOps, countAllocs, List.range'_succ, List.map_cons]
      exact congrArg _ (ih _)
    | deallocOp id =>
      simp only [runHeapOps, countAllocs]
      rw [ih, deallocateHeap_counter]

/-- C5: within one session, the identities minted by the allocations are
exactly `ref_1, ref_2, …` — the image of the strictly increasing counter
sequence `1, …, N` — and are pairwise distinct.  Deallocation never touches
`heapIdCounter` (`deallocateHeap_counter`), so a deallocated identity is
never handed to a later allocation: the whole session's identity list is
duplicate-free no matter how allocations and deallocations interleave. -/
theorem heap_identity_uniqueness (ops : List HeapOp) :
    (runHeapOps ops initialSMState).2
      = (List.range' 1 (countAllocs ops)).map mkRefId
    ∧ ((runHeapOps ops initialSMState).2).Nodup := by
  have h := runHeapOps_ids ops initialSMState
  refine ⟨h, ?_⟩
  rw [h]
  exact (List.nodup_range' 1 (countAllocs ops)).map mkRefId_injective

/-! ## Claim C9 — reset -/

/-- C9: `reset` carries over exactly the source text and the pacing speed,
and returns every other field — call stack, heap and its id counter, scopes
and their id counter, the three event-loop queues, current line, step
counter, execution flags, tracked timers (and `parsedCode` and
`executionQueue`) — to its initial value. -/
theorem reset_preserves_code_speed (st : SMState) :
    (reset st).1 = { initialSMState with code := st.code, speed := st.speed } :=
  rfl

/-! ## Claim C10 — heap references -/

theorem alGet_alSet_self (l : List (String × α)) (k : String) (v : α) :
    alGet (alSet l k v) k = some v := by
  induction l with
  | nil => simp [alGet, alSet, List.find?]
  | cons p rest ih =>
    by_cases h : p.1 = k
    · simp [alGet, alSet, h, List.find?]
    · cases p with
      | mk k' v' =>
        simp only at h
        simp only [alSet, if_neg h]
        simpa [alGet, List.find?, h] using ih

theorem mem_alSet {l : List (String × α)} {k : String} {v : α} {p : String × α} :
    p ∈ alSet l k v → p = (k, v) ∨ p ∈ l := by
  induction l with
  | nil =>
    intro h
    simpa [alSet] using h
  | cons q rest ih =>
    cases q with
    | mk k' v' =>
      intro h
      by_cases hk : k' = k
      · simp only [alSet, if_pos hk, List.mem_cons] at h
        rcases h with h | h
        · exact Or.inl h
        · exact Or.inr (List.mem_cons_of_mem _ h)
      · simp only [alSet, if_neg hk, List.mem_cons] at h
        rcases h with h | h
        · exact Or.inr (by rw [h]; exact List.mem_cons_self _ _)
        · rcases ih h with h' | h'
          · exact Or.inl h'
          · exact Or.inr (List.mem_cons_of_mem _ h')

theorem mem_of_alGet {l : List (String × α)} {k : String} {v : α}
    (h : alGet l k = some v) : (k, v) ∈ l := by
  simp only [alGet, Option.map_eq_some'] at h
  obtain ⟨p, hp, hv⟩ := h
  have hk := List.find?_some hp
  have hmem := List.mem_of_find?_eq_some hp
  have : p = (k, v) := by
    cases p with
    | mk a b =>
      simp only [decide_eq_true_eq] at hk
      simp only at hv
      rw [hk, hv]
  rwa [this] at hmem

/-- C10: a repeated `addHeapReference(from, to)` is a no-op — the
`!obj.references.includes(toId)` guard finds the identity already present —
and emits no notification; and since an allocation starts with an empty
reference list and this guarded push is the only way a reference is added,
duplicate-free reference lists stay duplicate-free, so no heap object's
list ever holds the same target twice. -/
theorem addHeapReference_idempotent_nodup (st : SMState) (fromId toId : String) :
    ((addHeapReference fromId toId ((addHeapReference fromId toId st).1)).1
        = (addHeapReference fromId toId st).1
      ∧ (addHeapReference fromId toId ((addHeapReference fromId toId st).1)).2 = [])
    ∧ ((∀ p ∈ st.heap, p.2.references.Nodup) →
        ∀ p ∈ (addHeapReference fromId toId st).1.heap, p.2.references.Nodup) := by
  constructor
  · unfold addHeapReference
    cases hg : alGet st.heap fromId with
    | none => simp [hg]
    | some obj =>
      by_cases hmem : toId ∈ obj.references
      · simp [hg, hmem]
      · simp only [hg, if_neg hmem]
        simp [alGet_alSet_self, List.mem_append]
  · intro hnd p hp
    unfold addHeapReference at hp
    cases hg : alGet st.heap fromId with
    | none =>
      simp only [hg] at hp
      exact hnd p hp
    | some obj =>
      simp only [hg] at hp
      by_cases hmem : toId ∈ obj.references
      · rw [if_pos hmem] at hp
        exact hnd p hp
      · rw [if_neg hmem] at hp
        simp only at hp
        rcases mem_alSet hp with heq | hold
        · subst heq
          simp only
          have hobj := hnd _ (mem_of_alGet hg)
          simp [List.nodup_append, hobj, hmem]
        · exact hnd p hold

/-- A one-object heap for the C10 witness. -/
def exHeapState : SMState :=
  { initialSMState with
    heap := [("a", { id := "a", type := "object", value := .valueV (.objV [])
                     references := [], createdAt := 0 })]
    heapIdCounter := 1 }

/-- Witness for `addHeapReference_idempotent_nodup`: adding `a → b` to a
duplicate-free heap keeps every reference list duplicate-free. -/
theorem addHeapReference_idempotent_nodup_witness :
    (addHeapReference "a" "b" exHeapState).1.heap
      = [("a", { id := "a", type := "object", value := .valueV (.objV [])
                 references := ["b"], createdAt := 0 })]
    ∧ ∀ p ∈ (addHeapReference "a" "b" exHeapState).1.heap, p.2.references.Nodup := by
  refine ⟨rfl, (addHeapReference_idempotent_nodup exHeapState "a" "b").2 ?_⟩
  intro p hp
  simp only [exHeapState, List.mem_singleton] at hp
  subst hp
  exact List.nodup_nil

/-! ## Claim C6 — assignment targeting -/

theorem findVariableScopeRev_append_none {l rest : List Scope} {name : String}
    (h : ∀ t ∈ l, alGet t.vars name = none) :
    findVariableScopeRev (l ++ rest) name = findVariableScopeRev rest name := by
  induction l with
  | nil => rfl
  | cons t ts ih =>
    simp only [List.cons_append, findVariableScopeRev,
      h t (List.mem_cons_self _ _), Option.isSome_none, Bool.false_eq_true,
      if_false]
    exact ih (fun u hu => h u (List.mem_cons_of_mem _ hu))

theorem find?_scope_first {pre post : List Scope} {s : Scope}
    (hpre : ∀ t ∈ pre, t.id ≠ s.id) :
    (pre ++ s :: post).find? (fun t => t.id = s.id) = some s := by
  induction pre with
  | nil => simp [List.find?]
  | cons t ts ih =>
    have hne : t.id ≠ s.id := hpre t (List.mem_cons_self _ _)
    simp only [List.cons_append, List.find?, hne, decide_False]
    exact ih (fun u hu => hpre u (List.mem_cons_of_mem _ hu))

theorem updateScopeById_append {pre post : List Scope} {s : Scope}
    (f : Scope → Scope) (hpre : ∀ t ∈ pre, t.id ≠ s.id) :
    updateScopeById (pre ++ s :: post) s.id f = pre ++ f s :: post := by
  induction pre with
  | nil => simp [updateScopeById]
  | cons t ts ih =>
    have hne : t.id ≠ s.id := hpre t (List.mem_cons_self _ _)
    simp only [List.cons_append, updateScopeById, if_neg hne]
    exact congrArg (List.cons t) (ih (fun u hu => hpre u (List.mem_cons_of_mem _ hu)))

theorem updateFrameVariable_scopes (n v t : String) (st : SMState) :
    (updateFrameVariable n v t st).1.scopes = st.scopes := by
  unfold updateFrameVariable
  cases st.callStack.getLast? <;> rfl

theorem updateScopeVariable_unbound {st : SMState} {name : String}
    (hall : ∀ t ∈ st.scopes, alGet t.vars name = none) (v : Value) :
    updateScopeVariable (findVariableScope st name) name v st = (st, []) := by
  cases hfv : findVariableScope st name with
  | none => simp [updateScopeVariable]
  | some sid =>
    cases hfind : List.find? (fun s => decide (s.id = sid)) st.scopes with
    | none => simp [updateScopeVariable, hfind]
    | some scope =>
      simp [updateScopeVariable, hfind,
        hall scope (List.mem_of_find?_eq_some hfind)]

/-- C6 (counterexample): assigning to a name bound in *no* scope leaves
every scope unchanged — no binding is created or updated in the current
scope, contrary to the claim's fallback clause.  Concretely: after `init`
(one empty global scope), executing `x = 7` leaves the global scope's
variable map empty. -/
theorem executeAssignment_unbound_counterexample :
    (executeAssignment 2 [] "x" (ValueExpr.num 7)
        (initExecutor 0 initialSMState)).map (fun x => x.sm.scopes.map (·.vars))
      = some [[]] := rfl

/-- C6 (amended): `executeAssignment` resolves the right-hand value and
updates the binding in the nearest scope — searching innermost to
outermost — *already holding* the name, leaving all other scopes intact;
but when no scope holds the name, the fallback scope id produced by
`findVariableScope` points at the current (innermost) scope and
`updateScopeVariable`'s `scope.variables[name]` guard then fails, so the
write is silently dropped: no scope is created, bound, or modified.
(`hres` confines the statement to right-hand sides whose resolution returns
a value without mutating state — every literal does.) -/
theorem executeAssignment_nearest_scope (fuel : Nat) (instrs : List Instr)
    (name : String) (ve : ValueExpr) (es : ExecState) (v : Value)
    (hres : resolveValue fuel instrs ve es = some (v, es)) :
    (∀ pre s post r,
        es.sm.scopes = pre ++ s :: post →
        (∀ t ∈ post, alGet t.vars name = none) →
        alGet s.vars name = some r →
        (∀ t ∈ pre, t.id ≠ s.id) →
        (executeAssignment (fuel + 1) instrs name ve es).map (fun x => x.sm.scopes)
          = some (pre ++
              ({ s with vars := alSet s.vars name { r with value := v } }) :: post))
    ∧ ((∀ t ∈ es.sm.scopes, alGet t.vars name = none) →
        (executeAssignment (fuel + 1) instrs name ve es).map (fun x => x.sm.scopes)
          = some es.sm.scopes) := by
  constructor
  · intro pre s post r hsplit hpost hr hpre
    have hfv : findVariableScope es.sm name = some s.id := by
      unfold findVariableScope
      rw [hsplit, List.reverse_append, List.reverse_cons, List.append_assoc]
      rw [findVariableScopeRev_append_none
        (by intro t ht; exact hpost t (List.mem_reverse.mp ht))]
      simp [findVariableScopeRev, hr]
    have hfind : List.find? (fun t => decide (t.id = s.id)) es.sm.scopes = some s := by
      rw [hsplit]
      exact find?_scope_first hpre
    have hupd : (updateScopeVariable (findVariableScope es.sm name) name v es.sm).1.scopes
        = pre ++ ({ s with vars := alSet s.vars name { r with value := v } }) :: post := by
      rw [hfv]
      simp only [updateScopeVariable, hfind, hr]
      rw [hsplit, updateScopeById_append _ hpre]
    simp only [executeAssignment, hres, Option.bind_eq_bind, Option.some_bind,
      Option.map_some', Option.some.injEq, emitSM]
    rw [updateFrameVariable_scopes]
    exact hupd
  · intro hall
    simp only [executeAssignment, hres, Option.bind_eq_bind, Option.some_bind,
      Option.map_some', Option.some.injEq, emitSM]
    rw [updateFrameVariable_scopes]
    simp only [updateScopeVariable_unbound hall]

/-- Executor state for the C6 witness: one scope binding `x` and `y`. -/
def exAssignState : ExecState :=
  { sm := { initialSMState with scopes := [exOuterScope] }
    pendingTimers := [], pendingMicrotasks := []
    globalScopeId := some "scope_1", events := [], seed := 0 }

/-- Witness: `x = 9` updates `x` in the (only) scope holding it and leaves
the other binding untouched. -/
theorem executeAssignment_nearest_scope_witness :
    (executeAssignment 2 [] "x" (ValueExpr.num 9) exAssignState).map
        (fun x => x.sm.scopes)
      = some [{ exOuterScope with
          vars := [("x", ⟨.num 9, "number", "var"⟩),
                   ("y", ⟨.num 7, "number", "var"⟩)] }] := by
  have h := (executeAssignment_nearest_scope 1 [] "x" (ValueExpr.num 9)
    exAssignState (.num 9) rfl).1 [] exOuterScope [] ⟨.num 1, "number", "var"⟩
    rfl (by intro t ht; cases ht) rfl (by intro t ht; cases ht)
  exact h.trans rfl

/-! ## Claim C8 — unresolved function reference -/

/-- C8: a function-call instruction whose name matches no parsed top-level
function declaration (`findFunction` misses) makes the interpreter emit
exactly one console entry of type `error` and return with the call skipped:
the resulting state differs from the input only by that one appended
console notification — call stack, scopes, heap and all queues are the
`sm` of the input, unchanged.  The second conjunct shows execution then
continues with the remaining instructions: the top-level step loop
proceeds to `rest` from exactly that error-logged state (after the usual
line-highlight, step-count and pacing-delay bookkeeping of a step). -/
theorem unresolved_function_call (fuel : Nat) (instrs : List Instr)
    (name : String) (args : List ValueExpr) (line : Nat) (es : ExecState)
    (h : findFunction instrs name = none) :
    executeInstruction (fuel + 2) instrs (.functionCall name args line) es
      = some { es with events := es.events ++
          [.consoleN "error" ["ReferenceError: " ++ name ++ " is not defined"]] }
    ∧ ∀ rest : List Instr,
        stepLoop (fuel + 3) instrs (.functionCall name args line :: rest) es
          = stepLoop (fuel + 2) instrs rest (delayE
              { es with
                sm := incrementStep { es.sm with currentLine := (line : Int) }
                events := (es.events ++ [.currentLineN (line : Int)]) ++
                  [.consoleN "error" ["ReferenceError: " ++ name ++ " is not defined"]] }) := by
  have hexec : ∀ es' : ExecState,
      executeInstruction (fuel + 2) instrs (.functionCall name args line) es'
        = some { es' with events := es'.events ++
            [.consoleN "error" ["ReferenceError: " ++ name ++ " is not defined"]] } := by
    intro es'
    simp only [executeInstruction, executeFunctionCall, h, emitSM, logConsole]
  refine ⟨hexec es, ?_⟩
  intro rest
  simp only [stepLoop, emitSM, setCurrentLine, hexec, Option.bind_eq_bind,
    Option.some_bind, Instr.line]

/-- Witness for `unresolved_function_call`: calling the undeclared `foo`
from the freshly initialised executor produces exactly one error entry. -/
theorem unresolved_function_call_witness :
    (executeInstruction 2 [] (Instr.functionCall "foo" [] 4)
        (initExecutor 5 initialSMState)).map consoleEvents
      = some [("error", ["ReferenceError: foo is not defined"])] := by
  have h := (unresolved_function_call 0 [] "foo" [] 4
    (initExecutor 5 initialSMState) rfl).1
  rw [h]
  rfl

/-! ## Claim C7 — the `getState` snapshot -/

/-- The global frame argument, as `init` passes it. -/
def exGlobalArg : FrameArg :=
  ⟨"Global Execution Context", "global", [], "window", 0⟩

/-- A function frame argument, as `executeFunctionCall` passes it. -/
def exCallArg : FrameArg := ⟨"f", "function", [], "window", 3⟩

/-- C7 (counterexample): the snapshot is *not* deep and detached.  Take the
store with one (active) global frame, snapshot it, then push a second
frame: the push's `isActive = false` write mutates the frame record the
snapshot shares, so reading the same snapshot now shows the global frame
deactivated — a mutation applied to the Store after the snapshot was taken
is observable through it. -/
theorem getState_not_detached_counterexample :
    (snapFrames (pushCallStackRef 1 exGlobalArg ⟨[], []⟩)
        (getStateRef (pushCallStackRef 1 exGlobalArg ⟨[], []⟩))).map (·.isActive)
      = [true]
    ∧ (snapFrames (pushCallStackRef 2 exCallArg (pushCallStackRef 1 exGlobalArg ⟨[], []⟩))
        (getStateRef (pushCallStackRef 1 exGlobalArg ⟨[], []⟩))).map (·.isActive)
      = [false]
    ∧ snapFrames (pushCallStackRef 2 exCallArg (pushCallStackRef 1 exGlobalArg ⟨[], []⟩))
        (getStateRef (pushCallStackRef 1 exGlobalArg ⟨[], []⟩))
      ≠ snapFrames (pushCallStackRef 1 exGlobalArg ⟨[], []⟩)
        (getStateRef (pushCallStackRef 1 exGlobalArg ⟨[], []⟩)) := by
  refine ⟨rfl, rfl, ?_⟩
  decide

/-- C7 (amended): `getState` returns a container-level shallow copy.  The
returned array is a fresh container holding the *same* frame references as
the Store's (first conjunct), so a later push extends the Store's array
while the snapshot's membership is unaffected (second conjunct — the
snapshot never lists the newly pushed frame); but the shared records are
mutated in place: after the push, dereferencing the old top frame — still
listed by the snapshot (fourth conjunct) — yields the record with
`isActive` flipped to `false` (third conjunct).  Symmetrically, writing
through a snapshot's record reference would hit the Store's record, since
they are one and the same. -/
theorem getState_shallow_copy (mem : FrameStore) (id : Nat) (frame : FrameArg)
    (r : Nat) (hlast : mem.callStack.getLast? = some r)
    (hvalid : r < mem.arena.length) :
    (getStateRef mem).callStack = mem.callStack
    ∧ (pushCallStackRef id frame mem).callStack
        = mem.callStack ++ [mem.arena.length]
    ∧ readFrame (pushCallStackRef id frame mem) r
        = { readFrame mem r with isActive := false }
    ∧ r ∈ (getStateRef mem).callStack := by
  refine ⟨rfl, ?_, ?_, ?_⟩
  · simp only [pushCallStackRef, hlast, List.length_set]
  · simp only [pushCallStackRef, hlast, readFrame]
    rw [List.getD_append _ _ _ _ (by simpa using hvalid)]
    simp [List.getD, List.getElem?_set_self hvalid]
  · have hnil : mem.callStack ≠ [] := by
      intro hn
      rw [hn] at hlast
      simp at hlast
    have := List.getLast?_eq_getLast mem.callStack hnil
    rw [this, Option.some_inj] at hlast
    rw [← hlast]
    exact List.getLast_mem hnil

/-- Witness for `getState_shallow_copy` at the one-frame store. -/
theorem getState_shallow_copy_witness :
    readFrame (pushCallStackRef 2 exCallArg (pushCallStackRef 1 exGlobalArg ⟨[], []⟩)) 0
      = { readFrame (pushCallStackRef 1 exGlobalArg ⟨[], []⟩) 0 with isActive := false } :=
  (getState_shallow_copy (pushCallStackRef 1 exGlobalArg ⟨[], []⟩) 2 exCallArg 0
    rfl (by decide)).2.2.1

/-! ## Claim C1 — event-loop draining -/

/-- Once the `getState()` snapshot taken at the top of `processEventLoop`
saw a non-empty microtask queue, the drain `while` can never exit: its
condition re-reads the snapshot's (frozen) length, which no iteration
decreases.  Formally, the loop returns `none` for *every* fuel. -/
theorem option_bind_none_of {o : Option α} {f : α → Option β}
    (h : ∀ a, f a = none) : o.bind f = none := by
  cases o with
  | none => rfl
  | some a => exact h a

theorem microtaskLoop_diverges (instrs : List Instr) {snapLen : Nat}
    (h : 0 < snapLen) :
    ∀ fuel es, microtaskLoop fuel instrs snapLen es = none := by
  intro fuel
  induction fuel with
  | zero => intro es; rfl
  | succ fuel ih =>
    intro es
    rw [microtaskLoop, if_pos (Or.inl h)]
    split
    rename_i x task es1 heq
    cases task with
    | none => exact ih _
    | some t =>
      show (if ¬ t.callback.isEmpty = true then
          (execSeq fuel instrs t.callback (delayE (emitSM (logConsole "info"
              ["Executing microtask: " ++ t.name] es1.sm) es1))).bind
            (fun es4 => microtaskLoop fuel instrs snapLen (shiftPendingMicro es4))
        else microtaskLoop fuel instrs snapLen (shiftPendingMicro es1)) = none
      split_ifs
      · exact ih _
      · exact option_bind_none_of (fun a => ih _)

/-- The one-pass drain aborts (formally: diverges at every fuel) whenever
any microtask is pending at entry, so the at-most-one-callback phase is
never reached from such a state. -/
theorem processEventLoop_stuck (fuel : Nat) (instrs : List Instr)
    (es : ExecState) (h : es.sm.eventLoop.microtaskQueue ≠ []) :
    processEventLoop fuel instrs es = none := by
  show (microtaskLoop fuel instrs es.sm.eventLoop.microtaskQueue.length es).bind
      (callbackPhase fuel instrs) = none
  rw [microtaskLoop_diverges instrs (List.length_pos.mpr h) fuel es]
  rfl

/-- The spec's scenario 2, a program with one timer registration and two
deferred-resolution registrations (the shipped "async" example):
`console.log("Start"); setTimeout(cb, 1000); Promise.resolve().then(p1);
Promise.resolve().then(p2); console.log("End");` — translated (it has no
hoistable declarations, so no marker). -/
def scenario2 : List Instr :=
  [ .consoleOp "log" [.str "Start"] 1,
    .setTimeoutI [.consoleOp "log" [.str "Timeout"] 3] 1000 3,
    .promiseI [.consoleOp "log" [.str "Promise 1"] 6] 6,
    .promiseI [.consoleOp "log" [.str "Promise 2"] 9] 9,
    .consoleOp "log" [.str "End"] 11 ]

/-- The state after `run()` has executed all of scenario 2's top-level
instructions (fuel 40 amply suffices for these five). -/
def scenario2Run : Option ExecState :=
  stepLoop 40 scenario2 scenario2 (initExecutor 100 initialSMState)

/-- C1 (the code violates the claim): after the top-level instructions of
a one-timer/two-promise program, both promise callbacks sit in the
microtask queue and the timer task in the web-API queue, with the console
so far `Start`, two registration infos, `End` (first conjunct, by
evaluation).  The draining pass the exhausted `step()` then performs never
terminates — for every fuel it yields `none` (second conjunct): the drain
loop's condition tests the frozen snapshot length, the callback phase is
unreachable, and the timer callback's `Timeout` output is never produced,
whereas the claim (and spec scenario 2) requires the pass to drain the two
microtasks and then run the timer callback, its output appearing last. -/
theorem eventLoop_draining_stalls :
    (scenario2Run.map (fun es =>
        (consoleEvents es,
         es.sm.eventLoop.microtaskQueue.map (·.name),
         es.sm.eventLoop.callbackQueue.length,
         es.sm.eventLoop.webAPIs.map (·.name))))
      = some ([("log", ["\"Start\""]),
               ("info", ["setTimeout registered (1000ms)"]),
               ("info", ["Promise.then added to microtask queue"]),
               ("info", ["Promise.then added to microtask queue"]),
               ("log", ["\"End\""])],
              ["Promise.then", "Promise.then"], 0, ["setTimeout"])
    ∧ ∀ fuel, scenario2Run.bind (processEventLoop fuel scenario2) = none := by
  constructor
  · rfl
  · intro fuel
    have h2 : scenario2Run.map (fun es => es.sm.eventLoop.microtaskQueue.length)
        = some 2 := rfl
    cases hrun : scenario2Run with
    | none => rfl
    | some es =>
      have hlen : es.sm.eventLoop.microtaskQueue.length = 2 := by
        rw [hrun] at h2
        simpa using h2
      have hne : es.sm.eventLoop.microtaskQueue ≠ [] := by
        intro hn
        rw [hn] at hlen
        simp at hlen
      simp [processEventLoop_stuck fuel scenario2 es hne]

end JSRV
